import Mathlib

set_option maxRecDepth 100000

/-!
Verification development for the NLP query demo backend
(`src/backend/nlp_query_demo.py`).

The Python module is shallowly embedded: strings are `List Char`
(Python `str.lower` is modelled by `Char.toLower`, adequate for the
ASCII inputs at hand), dictionaries are association lists, the
`cachetools.LRUCache` is an explicit most-recently-used-first list,
and the SQLite stores (`documents`, `doc_index`) are lists of records.
External effects (executing SQL against the employee tables, the wall
clock year, uuid generation) are parameters of the embedded functions.
-/

/-- Coerces a string literal to the `List Char` representation used
throughout the development. -/
def chars (s : String) : List Char := s.data

/-- Python `needle in haystack` (substring containment) on lowered text:
true iff `p` occurs contiguously inside `l`. -/
def containsSub (l p : List Char) : Bool :=
  match l with
  | [] => p.isEmpty
  | _ :: t => p.isPrefixOf l || containsSub t p

/-- Python `s.lower()` (ASCII fragment). -/
def lowerStr (s : List Char) : List Char := s.map Char.toLower

/-- Character class of the tokenizer regex `[a-zA-Z0-9\+\#\.\-]`. -/
def isTokenChar (c : Char) : Bool :=
  ('a' ≤ c && c ≤ 'z') || ('A' ≤ c && c ≤ 'Z') || ('0' ≤ c && c ≤ '9') ||
    c == '+' || c == '#' || c == '.' || c == '-'

/-- Helper for `tokenize`: scans the text accumulating the current maximal
run of token characters (reversed) in `acc`, emitting it when the run ends.
This is `re.findall` for the pattern of maximal `isTokenChar` runs. -/
def tokenizeRuns : List Char → List Char → List (List Char)
  | [], acc => if acc.isEmpty then [] else [acc.reverse]
  | c :: rest, acc =>
    if isTokenChar c then tokenizeRuns rest (c :: acc)
    else if acc.isEmpty then tokenizeRuns rest []
    else acc.reverse :: tokenizeRuns rest []

/-- Python `tokenize(text)`: `re.findall(r"[a-zA-Z0-9\+\#\.\-]+", text.lower())`. -/
def tokenize (text : List Char) : List (List Char) :=
  tokenizeRuns (lowerStr text) []

/-- Python `set(tokenize(text))`, modelled as the duplicate-free list of
tokens in first-occurrence order. -/
def tokenSet (text : List Char) : List (List Char) :=
  (tokenize text).dedup

/-- The three routes returned by `simple_query_classifier`: the Python
strings `"doc"` (text search), `"sql"` (structured query), `"hybrid"`. -/
inductive Route where
  | doc
  | sql
  | hybrid
deriving DecidableEq, Repr

/-- The text-search trigger test of `simple_query_classifier`:
`"document" in ql or "resume" in ql or "skill" in ql`. -/
def docTrigger (ql : List Char) : Bool :=
  containsSub ql (chars "document") || containsSub ql (chars "resume") ||
    containsSub ql (chars "skill")

/-- The structured-query trigger test of `simple_query_classifier`:
`"employee" in ql or "salary" in ql or "hired" in ql`. -/
def sqlTrigger (ql : List Char) : Bool :=
  containsSub ql (chars "employee") || containsSub ql (chars "salary") ||
    containsSub ql (chars "hired")

/-- Source `simple_query_classifier(q)`: lowercases `q`, routes to `doc` on a
text trigger, else to `sql` on a structured trigger, else `hybrid`. -/
def simple_query_classifier (q : List Char) : Route :=
  let ql := lowerStr q
  if docTrigger ql then Route.doc
  else if sqlTrigger ql then Route.sql
  else Route.hybrid

/-- Digit test for the regex `\d`. -/
def isDig (c : Char) : Bool := '0' ≤ c && c ≤ '9'

/-- Decimal value of a digit run (`int` applied to the regex capture). -/
def digitsToNat (ds : List Char) : Nat :=
  ds.foldl (fun n c => 10 * n + (c.toNat - '0'.toNat)) 0

/-- Python `re.search(r"top (\d+)", ql)`: finds the leftmost occurrence of the
literal `top `, a space, then a maximal digit run, returning the captured
number; `none` when the pattern matches nowhere. -/
def findTopN : List Char → Option Nat
  | [] => none
  | c :: rest =>
    if (chars "top ").isPrefixOf (c :: rest) &&
        (match rest.drop 3 with | d :: _ => isDig d | [] => false) then
      some (digitsToNat ((rest.drop 3).takeWhile isDig))
    else findTopN rest

/-- A bound parameter of a generated SQL statement: the translator binds
either an integer (the `top N` limit) or a string (the current year). -/
inductive SqlParam where
  | int (n : Nat)
  | str (s : List Char)
deriving DecidableEq, Repr

/-- Source `QueryEngine._nl_to_sql(q)`: the ordered pattern cascade. The current
calendar year (Python `time.localtime().tm_year`) is an explicit `year`
parameter. -/
def nl_to_sql (year : List Char) (q : List Char) : List Char × List SqlParam :=
  let ql := lowerStr q
  if containsSub ql (chars "how many employees") then
    (chars "SELECT COUNT(*) as total FROM employees", [])
  else if containsSub ql (chars "average salary by department") then
    (chars "SELECT d.dept_name, AVG(e.annual_salary) as avg_salary FROM employees e JOIN departments d ON e.dept_id=d.dept_id GROUP BY d.dept_name",
      [])
  else if containsSub ql (chars "top") && containsSub ql (chars "highest paid") then
    (chars "SELECT * FROM employees ORDER BY annual_salary DESC LIMIT ?",
      [SqlParam.int ((findTopN ql).getD 5)])
  else if containsSub ql (chars "hired this year") then
    (chars "SELECT * FROM employees WHERE substr(join_date,1,4)=?",
      [SqlParam.str year])
  else
    (chars "SELECT * FROM employees LIMIT 10", [])

/-- The `cachetools.LRUCache` used for `QUERY_CACHE`: a bounded map whose
entries are kept most-recently-used first. `maxsize` is the configured
capacity (200 in the module). -/
structure LRUCache (K V : Type) where
  maxsize : Nat
  items : List (K × V)
deriving DecidableEq

/-- Pure lookup without recency update: Python `key in cache` /
`Cache.__contains__`, which does not touch the eviction order. -/
def LRUCache.lookup {K V : Type} [DecidableEq K] (c : LRUCache K V) (k : K) :
    Option V :=
  (c.items.find? (fun e => decide (e.1 = k))).map (fun e => e.2)

/-- Indexing `cache[key]` (`LRUCache.__getitem__`): on a hit the entry moves to the
most-recently-used position; on a miss the cache is unchanged (the Python
code only indexes after a containment check, so the `KeyError` path is
dead). -/
def LRUCache.get {K V : Type} [DecidableEq K] (c : LRUCache K V) (k : K) :
    Option V × LRUCache K V :=
  match c.items.find? (fun e => decide (e.1 = k)) with
  | some e => (some e.2, ⟨c.maxsize, e :: c.items.filter (fun x => !(decide (x.1 = k)))⟩)
  | none => (none, c)

/-- Assignment `cache[key] = value` (`LRUCache.__setitem__`): any existing binding of
the key is replaced, the new entry becomes most recently used, and when
the size would exceed `maxsize` the least-recently-used entries (the tail
beyond `maxsize`) are evicted. -/
def LRUCache.put {K V : Type} [DecidableEq K] (c : LRUCache K V) (k : K) (v : V) :
    LRUCache K V :=
  ⟨c.maxsize, ((k, v) :: c.items.filter (fun x => !(decide (x.1 = k)))).take c.maxsize⟩

/-- A row of the `documents` table: `(doc_id, doc_name, content)`. The
uuid4 document ids are modelled as the naturals handed out by a fresh-id
counter; `content` is the decoded (and, for CSV uploads, column-extracted)
text that the Python code stores and indexes. -/
structure StoredDoc where
  doc_id : Nat
  doc_name : List Char
  content : List Char
deriving DecidableEq, Repr

/-- One entry of the in-memory `INGEST_STATUS` dict:
`{"total": ..., "processed": ..., "done": ...}`. -/
structure IngestJob where
  total : Nat
  processed : Nat
  done : Bool
deriving DecidableEq, Repr

/-- The persistent backend state: the `documents` table, the `doc_index`
inverted-index table of `(term, doc_id)` rows, the `INGEST_STATUS` dict
(job ids modelled as naturals), and the fresh-id counter standing in for
uuid4 generation. -/
structure BackendState where
  docs : List StoredDoc
  index : List (List Char × Nat)
  jobs : List (Nat × IngestJob)
  nextId : Nat
deriving DecidableEq

/-- The state of a freshly created demo database: no documents, an empty
inverted index, no ingestion jobs. -/
def initState : BackendState := ⟨[], [], [], 0⟩

/-- Dict assignment `INGEST_STATUS[job_id] = j` (insert or overwrite). -/
def setJob (jobs : List (Nat × IngestJob)) (jid : Nat) (j : IngestJob) :
    List (Nat × IngestJob) :=
  match jobs with
  | [] => [(jid, j)]
  | (k, v) :: t => if k = jid then (jid, j) :: t else (k, v) :: setJob t jid j

/-- Dict read `INGEST_STATUS.get(job_id)`. -/
def getJob (jobs : List (Nat × IngestJob)) (jid : Nat) : Option IngestJob :=
  (jobs.find? (fun e => decide (e.1 = jid))).map (fun e => e.2)

/-- In-place mutation of one job's record, as in
`INGEST_STATUS[job_id]["processed"] += 1`. -/
def updateJob (jobs : List (Nat × IngestJob)) (jid : Nat)
    (f : IngestJob → IngestJob) : List (Nat × IngestJob) :=
  jobs.map (fun e => if e.1 = jid then (e.1, f e.2) else e)

/-- First line of `process_documents`:
`INGEST_STATUS[job_id] = {"total": total, "processed": 0, "done": False}`. -/
def ingestStart (st : BackendState) (jid : Nat) (total : Nat) : BackendState :=
  { st with jobs := setJob st.jobs jid ⟨total, 0, false⟩ }

/-- One iteration of the `for file in files` loop of `process_documents`:
store the document under a fresh id, insert one `doc_index` row per
element of `set(tokenize(content))`, and increment the job's processed
counter. A file is a `(filename, content)` pair. -/
def ingestDoc (st : BackendState) (jid : Nat) (file : List Char × List Char) :
    BackendState :=
  { docs := st.docs ++ [⟨st.nextId, file.1, file.2⟩]
    index := st.index ++ (tokenSet file.2).map (fun t => (t, st.nextId))
    jobs := updateJob st.jobs jid (fun j => { j with processed := j.processed + 1 })
    nextId := st.nextId + 1 }

/-- Last line of `process_documents`: `INGEST_STATUS[job_id]["done"] = True`. -/
def ingestFinish (st : BackendState) (jid : Nat) : BackendState :=
  { st with jobs := updateJob st.jobs jid (fun j => { j with done := true }) }

/-- Source `DocumentProcessor.process_documents(files, job_id)`: record the
job, process every file in input order, then mark the job done. -/
def process_documents (st : BackendState) (jid : Nat)
    (files : List (List Char × List Char)) : BackendState :=
  ingestFinish
    (files.foldl (fun s f => ingestDoc s jid f) (ingestStart st jid files.length))
    jid

/-- The intermediate state of `process_documents` after the first `k`
files of the batch have been processed (before the final done-flag write). -/
def ingestAfter (st : BackendState) (jid : Nat)
    (files : List (List Char × List Char)) (k : Nat) : BackendState :=
  (files.take k).foldl (fun s f => ingestDoc s jid f) (ingestStart st jid files.length)

/-- Endpoint `GET /api/ingest/status`:
`INGEST_STATUS.get(job_id, {"error": "not found"})`; `none` models the
distinguishable `{"error": "not found"}` payload. -/
def ingest_status (st : BackendState) (jid : Nat) : Option IngestJob :=
  getJob st.jobs jid

/-- One result dict of `search_documents`:
`{"doc_id": ..., "doc_name": ..., "snippet": ..., "score": ...}`. -/
structure SearchResult where
  doc_id : Nat
  doc_name : List Char
  snippet : List Char
  score : Nat
deriving DecidableEq, Repr

/-- Number of `doc_index` rows whose term is among `terms` and whose doc id
is `did`: the per-document `COUNT(*)` of the grouped search query. -/
def scoreOf (index : List (List Char × Nat)) (terms : List (List Char))
    (did : Nat) : Nat :=
  (index.filter (fun e => terms.contains e.1 && decide (e.2 = did))).length

/-- The distinct doc ids with at least one matching `doc_index` row — the
groups of `GROUP BY doc_id`, in first-appearance (insertion) order. -/
def matchingIds (index : List (List Char × Nat)) (terms : List (List Char)) :
    List Nat :=
  ((index.filter (fun e => terms.contains e.1)).map (fun e => e.2)).dedup

/-- Newline collapsing of the snippet: `content[:150].replace("\n", " ")`. -/
def mkSnippet (content : List Char) : List Char :=
  (content.take 150).map (fun c => if c = '\n' then ' ' else c)

/-- Source `DocumentProcessor.search_documents(query, top_k)`: tokenize the
query into a term set (empty set returns no results); group matching
`doc_index` rows by doc id, order groups by descending count (`ORDER BY
COUNT(*) DESC`, ties in the stable base order), apply `LIMIT top_k`, then
join each surviving id against `documents`, skipping ids without a row,
and build the result with a 150-character newline-collapsed snippet.
SQLite leaves the order of equal-count groups unspecified, so the stable
sort of the insertion-ordered groups is the model's concrete choice. -/
def search_documents (st : BackendState) (query : List Char) (top_k : Nat) :
    List SearchResult :=
  let terms := tokenSet query
  if terms.isEmpty then []
  else
    let ranked := (matchingIds st.index terms).insertionSort
      (fun a b => scoreOf st.index terms b ≤ scoreOf st.index terms a)
    (ranked.take top_k).filterMap (fun did =>
      (st.docs.find? (fun d => decide (d.doc_id = did))).map (fun d =>
        { doc_id := did, doc_name := d.doc_name, snippet := mkSnippet d.content,
          score := scoreOf st.index terms did }))

/-- Well-formedness of a backend state reached by ingestion: all stored
ids are below the fresh-id counter, and the score of any stored document
against any term list is the number of its distinct tokens among the
terms (each ingested document contributes exactly one index row per
distinct token). -/
def ScoresMatch (s : BackendState) : Prop :=
  (∀ e ∈ s.index, e.2 < s.nextId) ∧
  (∀ d ∈ s.docs, d.doc_id < s.nextId) ∧
  ∀ d ∈ s.docs, ∀ terms : List (List Char),
    scoreOf s.index terms d.doc_id =
      ((tokenSet d.content).filter (fun t => terms.contains t)).length

/-- The `results` payload of a query: rows of a structured query (cells
abstracted as strings), document search results, or the captured error
dict `{"error": str(e)}`. -/
inductive Payload where
  | rows (rs : List (List (List Char)))
  | docs (rs : List SearchResult)
  | err (msg : List Char)
deriving DecidableEq

/-- The result dict of `process_query`:
`{"query": q, "type": qtype, "cached": ..., "results": ...}`. -/
structure QueryResult where
  query : List Char
  type : Route
  cached : Bool
  results : Payload
deriving DecidableEq

/-- Body of `process_query`'s try block on a cache miss: on the `sql`
route translate and execute (an `Except.error` from the store is the
caught exception, captured as the error payload), otherwise run the
document search with `top_k = 5`. `execSql` abstracts
`cursor.execute` + `fetchall` against the SQLite store. -/
def computeResult
    (execSql : List Char → List SqlParam → Except (List Char) (List (List (List Char))))
    (year : List Char) (st : BackendState) (q : List Char) (qtype : Route) :
    QueryResult :=
  if qtype = Route.sql then
    if (nl_to_sql year q).1.isEmpty then
      ⟨q, qtype, false, Payload.err (chars "No SQL generated")⟩
    else
      match execSql (nl_to_sql year q).1 (nl_to_sql year q).2 with
      | Except.ok rows => ⟨q, qtype, false, Payload.rows rows⟩
      | Except.error e => ⟨q, qtype, false, Payload.err e⟩
  else
    ⟨q, qtype, false, Payload.docs (search_documents st q 5)⟩

/-- Source `QueryEngine.process_query(q)`: classify, consult `QUERY_CACHE`
under the key `(q, qtype)` (a hit returns the stored result re-marked
`cached := True`; the containment probe does not touch recency, the read
does), otherwise compute the result and write it through to the cache. -/
def process_query
    (execSql : List Char → List SqlParam → Except (List Char) (List (List (List Char))))
    (year : List Char) (st : BackendState)
    (cache : LRUCache (List Char × Route) QueryResult) (q : List Char) :
    QueryResult × LRUCache (List Char × Route) QueryResult :=
  let qtype := simple_query_classifier q
  match cache.get (q, qtype) with
  | (some res, cache') => ({ res with cached := true }, cache')
  | (none, cache') =>
    let result := computeResult execSql year st q qtype
    (result, cache'.put (q, qtype) result)

/-- One column as reported by `PRAGMA table_info`: name, declared type,
and whether it is the table's own primary-key column. -/
structure SchemaColumn where
  name : List Char
  ctype : List Char
  pk : Bool
deriving DecidableEq, Repr

/-- One inferred relationship dict:
`{"column": ..., "likely_ref_table": ...}`. -/
structure SchemaRel where
  column : List Char
  likely_ref_table : List Char
deriving DecidableEq, Repr

/-- Python `name.endswith("_id")`. -/
def endsWithId (name : List Char) : Bool := (chars "_id").isSuffixOf name

/-- The relationship-inference loop of `SchemaDiscovery.analyze_database`:
for each column, emit a relationship when the name ends in `_id` AND the
name differs from the hardcoded literal `"emp_id"`; the referenced table
is the name with the last three characters (`name[:-3]`) removed. The
loop never consults which column is the table's primary key. -/
def inferRelationships (cols : List SchemaColumn) : List SchemaRel :=
  cols.filterMap (fun c =>
    if endsWithId c.name && !(decide (c.name = chars "emp_id")) then
      some ⟨c.name, c.name.take (c.name.length - 3)⟩
    else none)

/-- The relationship inference as the spec describes it, for comparison
with the source's `inferRelationships`: a relationship exactly when the
column name ends in `_id` and the column is not the table's own primary
identifier (its `pk` flag). -/
def inferRelationshipsSpec (cols : List SchemaColumn) : List SchemaRel :=
  cols.filterMap (fun c =>
    if endsWithId c.name && !c.pk then
      some ⟨c.name, c.name.take (c.name.length - 3)⟩
    else none)

/-- The `departments` table of the demo database created by
`ensure_demo_db`: `dept_id INTEGER PRIMARY KEY`, `dept_name TEXT`,
`manager_id INTEGER`. -/
def departmentsCols : List SchemaColumn :=
  [⟨chars "dept_id", chars "INTEGER", true⟩,
    ⟨chars "dept_name", chars "TEXT", false⟩,
    ⟨chars "manager_id", chars "INTEGER", false⟩]

/-- C2: the query classifier is a deterministic keyword matcher checking
text triggers before structured triggers: the count query routes to the
structured (`sql`) route, the resume query routes to the text (`doc`)
route, and any query containing both a text trigger and a structured
trigger takes the text route. -/
theorem simple_query_classifier_spec :
    simple_query_classifier (chars "How many employees do we have?") = Route.sql ∧
    simple_query_classifier (chars "Find resumes with Python skill") = Route.doc ∧
    ∀ q : List Char, docTrigger (lowerStr q) = true →
      sqlTrigger (lowerStr q) = true → simple_query_classifier q = Route.doc := by
  refine ⟨by decide, by decide, ?_⟩
  intro q hdoc _
  simp [simple_query_classifier, hdoc]

/-- Witness for C2: `"employee resume"` carries both a structured trigger
(`employee`) and a text trigger (`resume`) and classifies to the text route. -/
theorem simple_query_classifier_spec_witness :
    simple_query_classifier (chars "employee resume") = Route.doc :=
  simple_query_classifier_spec.2.2 (chars "employee resume") (by decide) (by decide)

/-- C3: the translator checks its patterns in a fixed priority order with
first match winning: the count question yields the count-all template with
no parameters; `top 3 highest paid` yields the ranked-limit template bound
to `3`; when the `top`/`highest paid` pattern fires but no number follows
`top`, the limit defaults to `5`; and a query matching no pattern falls
back to the default bounded listing. -/
theorem nl_to_sql_priority :
    (∀ year, nl_to_sql year (chars "how many employees do we have") =
      (chars "SELECT COUNT(*) as total FROM employees", [])) ∧
    (∀ year, nl_to_sql year (chars "top 3 highest paid") =
      (chars "SELECT * FROM employees ORDER BY annual_salary DESC LIMIT ?",
        [SqlParam.int 3])) ∧
    (∀ year q, containsSub (lowerStr q) (chars "how many employees") = false →
      containsSub (lowerStr q) (chars "average salary by department") = false →
      containsSub (lowerStr q) (chars "top") = true →
      containsSub (lowerStr q) (chars "highest paid") = true →
      findTopN (lowerStr q) = none →
      nl_to_sql year q =
        (chars "SELECT * FROM employees ORDER BY annual_salary DESC LIMIT ?",
          [SqlParam.int 5])) ∧
    (∀ year q, containsSub (lowerStr q) (chars "how many employees") = false →
      containsSub (lowerStr q) (chars "average salary by department") = false →
      (containsSub (lowerStr q) (chars "top") = false ∨
        containsSub (lowerStr q) (chars "highest paid") = false) →
      containsSub (lowerStr q) (chars "hired this year") = false →
      nl_to_sql year q = (chars "SELECT * FROM employees LIMIT 10", [])) := by
  refine ⟨fun year => rfl, fun year => rfl, ?_, ?_⟩
  · intro year q h1 h2 h3 h4 h5
    simp [nl_to_sql, h1, h2, h3, h4, h5]
  · intro year q h1 h2 h3 h4
    rcases h3 with h3 | h3 <;> simp [nl_to_sql, h1, h2, h3, h4]

/-- Witness for C3: `"top ten highest paid"` has no number after `top`
and gets the default limit `5`; `"list everything"` matches no pattern and
gets the fallback listing query. -/
theorem nl_to_sql_priority_witness :
    nl_to_sql (chars "2025") (chars "top ten highest paid") =
      (chars "SELECT * FROM employees ORDER BY annual_salary DESC LIMIT ?",
        [SqlParam.int 5]) ∧
    nl_to_sql (chars "2025") (chars "list everything") =
      (chars "SELECT * FROM employees LIMIT 10", []) :=
  ⟨nl_to_sql_priority.2.2.1 (chars "2025") (chars "top ten highest paid")
      (by decide) (by decide) (by decide) (by decide) (by decide),
    nl_to_sql_priority.2.2.2 (chars "2025") (chars "list everything")
      (by decide) (by decide) (Or.inl (by decide)) (by decide)⟩

theorem nl_to_sql_template_length (year q : List Char) :
    1 ≤ (nl_to_sql year q).1.length := by
  unfold nl_to_sql
  dsimp only
  repeat' split
  all_goals dsimp only
  all_goals decide

theorem nl_to_sql_template_isEmpty (year q : List Char) :
    (nl_to_sql year q).1.isEmpty = false := by
  have h := nl_to_sql_template_length year q
  cases hl : (nl_to_sql year q).1 with
  | nil => rw [hl] at h; simp at h
  | cons a l => simp

/-- C10: `_nl_to_sql` always returns a non-empty SQL template (every
branch, including the final fallback, yields a non-empty string literal),
so the `"No SQL generated"` error branch of `process_query` is
unreachable. -/
theorem nl_to_sql_nonempty (year q : List Char) :
    1 ≤ (nl_to_sql year q).1.length :=
  nl_to_sql_template_length year q

/-- C8: cache boundedness and LRU eviction. Insertion never leaves the
cache above its configured capacity and reads never grow it; inserting a
fresh key into a cache exactly at capacity evicts exactly the
least-recently-used entry (the new item list is the new entry followed by
all old entries but the last); and reading a present key refreshes its
recency, so it survives the next overflow insertion (capacity at least 2). -/
theorem lru_cache_spec {K V : Type} [DecidableEq K] (c : LRUCache K V)
    (k k' : K) (v v' w : V) :
    (c.put k v).items.length ≤ c.maxsize ∧
    (c.get k).2.items.length ≤ c.items.length ∧
    (1 ≤ c.maxsize → c.items.length = c.maxsize → c.lookup k = none →
      (c.put k v).items = (k, v) :: c.items.dropLast) ∧
    (2 ≤ c.maxsize → c.lookup k = some w → k' ≠ k →
      (((c.get k).2).put k' v').lookup k = some w) := by
  refine ⟨?_, ?_, ?_, ?_⟩
  · simp [LRUCache.put]
  · unfold LRUCache.get
    cases hfind : c.items.find? (fun e => decide (e.1 = k)) with
    | none => simp
    | some e =>
      have he : e ∈ c.items := List.mem_of_find?_eq_some hfind
      have hk : e.1 = k := by
        have := List.find?_some hfind
        simpa using this
      simp only [List.length_cons]
      have hlt : (c.items.filter (fun x => !(decide (x.1 = k)))).length <
          c.items.length := by
        apply List.length_filter_lt_length_iff_exists.mpr
        exact ⟨e, he, by simp [hk]⟩
      omega
  · intro h1 hlen hnone
    have hfind : c.items.find? (fun e => decide (e.1 = k)) = none := by
      cases hf : c.items.find? (fun e => decide (e.1 = k)) with
      | none => rfl
      | some e =>
        unfold LRUCache.lookup at hnone
        rw [hf] at hnone
        simp at hnone
    have hfilter : c.items.filter (fun x => !(decide (x.1 = k))) = c.items := by
      apply List.filter_eq_self.mpr
      intro a ha
      have := List.find?_eq_none.mp hfind a ha
      simpa using this
    obtain ⟨m, hm⟩ : ∃ m, c.maxsize = m + 1 := ⟨c.maxsize - 1, by omega⟩
    simp only [LRUCache.put, hfilter, hm, List.take_succ_cons]
    rw [List.dropLast_eq_take, hlen, hm]
    simp
  · intro h2 hsome hne
    obtain ⟨e, hfind, hev⟩ :
        ∃ e, c.items.find? (fun x => decide (x.1 = k)) = some e ∧ e.2 = w := by
      unfold LRUCache.lookup at hsome
      cases hf : c.items.find? (fun x => decide (x.1 = k)) with
      | none => rw [hf] at hsome; simp at hsome
      | some e => rw [hf] at hsome; exact ⟨e, rfl, by simpa using hsome⟩
    have hk : e.1 = k := by
      have := List.find?_some hfind
      simpa using this
    obtain ⟨m, hm⟩ : ∃ m, c.maxsize = m + 2 := ⟨c.maxsize - 2, by omega⟩
    unfold LRUCache.get
    rw [hfind]
    unfold LRUCache.put
    have hkeep : (decide (e.1 = k')) = false := by
      have : ¬ k = k' := fun h => hne h.symm
      simp [hk, this]
    simp only [List.filter_cons, hkeep, Bool.not_false, if_true]
    unfold LRUCache.lookup
    simp only [hm, List.take_succ_cons, List.find?_cons]
    have hne' : (decide (k' = k)) = false := by simp [hne]
    simp [hne', hk, hev]

/-- Witness for C8: a capacity-2 cache holding keys `1` (most recent) and
`2` (least recent). Inserting fresh key `3` evicts exactly key `2`; after
first reading key `2`, inserting `3` keeps key `2`. -/
theorem lru_cache_spec_witness :
    ((⟨2, [((1 : Nat), (10 : Nat)), (2, 20)]⟩ : LRUCache Nat Nat).put 3 30).items =
      (3, 30) :: [(1, 10)] ∧
    (((⟨2, [((1 : Nat), (10 : Nat)), (2, 20)]⟩ : LRUCache Nat Nat).get 2).2.put 3 30).lookup 2 =
      some 20 :=
  ⟨(lru_cache_spec ⟨2, [(1, 10), (2, 20)]⟩ 3 0 30 0 0).2.2.1
      (by decide) (by decide) (by decide),
    (lru_cache_spec ⟨2, [(1, 10), (2, 20)]⟩ 2 3 0 30 20).2.2.2
      (by decide) (by decide) (by decide)⟩

theorem getJob_setJob (jobs : List (Nat × IngestJob)) (jid : Nat) (j : IngestJob) :
    getJob (setJob jobs jid j) jid = some j := by
  induction jobs with
  | nil => simp [setJob, getJob]
  | cons e t ih =>
    obtain ⟨k, v⟩ := e
    by_cases hk : k = jid
    · simp [setJob, hk, getJob]
    · simpa [setJob, hk, getJob, List.find?] using ih

theorem getJob_updateJob (jobs : List (Nat × IngestJob)) (jid : Nat)
    (f : IngestJob → IngestJob) :
    getJob (updateJob jobs jid f) jid = (getJob jobs jid).map f := by
  induction jobs with
  | nil => simp [updateJob, getJob]
  | cons e t ih =>
    obtain ⟨k, v⟩ := e
    by_cases hk : k = jid
    · simp [updateJob, hk, getJob, List.find?]
    · simpa [updateJob, hk, getJob, List.find?] using ih

theorem getJob_fold_ingestDoc (jid : Nat) (l : List (List Char × List Char)) :
    ∀ s : BackendState,
      getJob (l.foldl (fun s f => ingestDoc s jid f) s).jobs jid =
        (getJob s.jobs jid).map
          (fun j => ⟨j.total, j.processed + l.length, j.done⟩) := by
  induction l with
  | nil =>
    intro s
    cases h : getJob s.jobs jid <;> simp [h]
  | cons f t ih =>
    intro s
    rw [List.foldl_cons, ih]
    simp only [ingestDoc]
    rw [getJob_updateJob]
    cases h : getJob s.jobs jid <;> simp [h, Nat.add_assoc, Nat.add_comm 1]

/-- C6: ingestion job lifecycle. After `k ≤ N` of the batch's `N` files the
job's status is exactly `{total := N, processed := k, done := false}` — so
the processed count climbs monotonically from 0 to N and never exceeds the
recorded total while the completion flag stays false; when the batch
finishes the status is `{total := N, processed := N, done := true}`; a
zero-length batch is complete immediately; and querying the status of a
job id that is not tracked returns the distinguishable not-found result
(`none`) rather than raising. -/
theorem process_documents_lifecycle (st : BackendState) (jid : Nat)
    (files : List (List Char × List Char)) (k : Nat) (hk : k ≤ files.length) :
    ingest_status (ingestAfter st jid files k) jid =
      some ⟨files.length, k, false⟩ ∧
    ingest_status (process_documents st jid files) jid =
      some ⟨files.length, files.length, true⟩ ∧
    ingest_status (process_documents st jid []) jid = some ⟨0, 0, true⟩ ∧
    ∀ jid' : Nat, (st.jobs.all fun e => !(decide (e.1 = jid'))) = true →
      ingest_status st jid' = none := by
  refine ⟨?_, ?_, ?_, ?_⟩
  · unfold ingest_status ingestAfter
    rw [getJob_fold_ingestDoc]
    unfold ingestStart
    dsimp only
    rw [getJob_setJob]
    simp [List.length_take, Nat.min_eq_left hk]
  · unfold ingest_status process_documents ingestFinish
    dsimp only
    rw [getJob_updateJob, getJob_fold_ingestDoc]
    unfold ingestStart
    dsimp only
    rw [getJob_setJob]
    simp
  · simp [ingest_status, process_documents, ingestFinish, ingestStart,
      getJob_updateJob, getJob_setJob]
  · intro jid' hall
    unfold ingest_status getJob
    rw [List.find?_eq_none.mpr]
    · rfl
    · intro e he
      have := List.all_eq_true.mp hall e he
      simpa using this

/-- Witness for C6: a two-file batch into the fresh state under job id 7:
status after one file, status after completion, and a not-found probe of
the untracked id 9. -/
theorem process_documents_lifecycle_witness :
    ingest_status
        (ingestAfter initState 7 [(chars "a", chars "x"), (chars "b", chars "y")] 1) 7 =
      some ⟨2, 1, false⟩ ∧
    ingest_status
        (process_documents initState 7 [(chars "a", chars "x"), (chars "b", chars "y")]) 7 =
      some ⟨2, 2, true⟩ ∧
    ingest_status initState 9 = none :=
  ⟨(process_documents_lifecycle initState 7
        [(chars "a", chars "x"), (chars "b", chars "y")] 1 (by decide)).1,
    (process_documents_lifecycle initState 7
        [(chars "a", chars "x"), (chars "b", chars "y")] 1 (by decide)).2.1,
    (process_documents_lifecycle initState 7
        [(chars "a", chars "x"), (chars "b", chars "y")] 1 (by decide)).2.2.2 9 (by decide)⟩

theorem index_mono_fold (jid : Nat) (l : List (List Char × List Char)) :
    ∀ (s : BackendState) (e : List Char × Nat), e ∈ s.index →
      e ∈ (l.foldl (fun s f => ingestDoc s jid f) s).index := by
  induction l with
  | nil => intro s e he; simpa using he
  | cons f t ih =>
    intro s e he
    rw [List.foldl_cons]
    exact ih _ e (by simp [ingestDoc, he])

theorem docs_mono_fold (jid : Nat) (l : List (List Char × List Char)) :
    ∀ (s : BackendState) (d : StoredDoc), d ∈ s.docs →
      d ∈ (l.foldl (fun s f => ingestDoc s jid f) s).docs := by
  induction l with
  | nil => intro s d hd; simpa using hd
  | cons f t ih =>
    intro s d hd
    rw [List.foldl_cons]
    exact ih _ d (by simp [ingestDoc, hd])

theorem index_complete_fold (jid : Nat) (l : List (List Char × List Char)) :
    ∀ (s : BackendState) (i : Nat) (hi : i < l.length) (t : List Char),
      t ∈ tokenize (l.get ⟨i, hi⟩).2 →
      (t, s.nextId + i) ∈ (l.foldl (fun s f => ingestDoc s jid f) s).index := by
  induction l with
  | nil => intro s i hi; simp at hi
  | cons f rest ih =>
    intro s i hi t ht
    rw [List.foldl_cons]
    cases i with
    | zero =>
      apply index_mono_fold
      have htok : t ∈ tokenSet f.2 := by
        simpa [tokenSet, List.mem_dedup] using ht
      simp only [ingestDoc, Nat.add_zero, List.mem_append]
      exact Or.inr (List.mem_map.mpr ⟨t, htok, rfl⟩)
    | succ i =>
      have hi' : i < rest.length := Nat.lt_of_succ_lt_succ hi
      have := ih (ingestDoc s jid f) i hi' t ht
      have harith : s.nextId + (i + 1) = (ingestDoc s jid f).nextId + i := by
        simp only [ingestDoc]
        omega
      rw [harith]
      exact this

theorem docs_complete_fold (jid : Nat) (l : List (List Char × List Char)) :
    ∀ (s : BackendState) (i : Nat) (hi : i < l.length),
      (⟨s.nextId + i, (l.get ⟨i, hi⟩).1, (l.get ⟨i, hi⟩).2⟩ : StoredDoc) ∈
        (l.foldl (fun s f => ingestDoc s jid f) s).docs := by
  induction l with
  | nil => intro s i hi; simp at hi
  | cons f rest ih =>
    intro s i hi
    rw [List.foldl_cons]
    cases i with
    | zero =>
      apply docs_mono_fold
      simp [ingestDoc]
    | succ i =>
      have hi' : i < rest.length := Nat.lt_of_succ_lt_succ hi
      have := ih (ingestDoc s jid f) i hi'
      have harith : s.nextId + (i + 1) = (ingestDoc s jid f).nextId + i := by
        simp only [ingestDoc]
        omega
      rw [harith]
      exact this

/-- C5: indexing completeness. For every file of an ingested batch, the
document is stored under its assigned id `st.nextId + i` (the `i`-th fresh
id) and every term of its tokenized text yields an inverted-index entry
`(term, id)`; concretely, ingesting a document with content
`"Python Engineer NY"` into a fresh backend makes it the result of
searching `"engineer"`. -/
theorem process_documents_indexing (st : BackendState) (jid : Nat)
    (files : List (List Char × List Char)) (i : Nat) (hi : i < files.length)
    (t : List Char) (ht : t ∈ tokenize (files.get ⟨i, hi⟩).2) :
    (⟨st.nextId + i, (files.get ⟨i, hi⟩).1, (files.get ⟨i, hi⟩).2⟩ : StoredDoc) ∈
      (process_documents st jid files).docs ∧
    (t, st.nextId + i) ∈ (process_documents st jid files).index ∧
    (search_documents
        (process_documents initState 0 [(chars "resume.txt", chars "Python Engineer NY")])
        (chars "engineer") 5).map (fun r => r.doc_id) = [0] := by
  refine ⟨?_, ?_, by decide⟩
  · unfold process_documents ingestFinish
    dsimp only
    exact docs_complete_fold jid files (ingestStart st jid files.length) i hi
  · unfold process_documents ingestFinish
    dsimp only
    exact index_complete_fold jid files (ingestStart st jid files.length) i hi t ht

/-- Witness for C5: the single-file batch with content
`"Python Engineer NY"` ingested into the fresh state gets id 0, and the
term `engineer` is indexed to it. -/
theorem process_documents_indexing_witness :
    (chars "engineer", 0) ∈
      (process_documents initState 0
        [(chars "resume.txt", chars "Python Engineer NY")]).index :=
  (process_documents_indexing initState 0
    [(chars "resume.txt", chars "Python Engineer NY")] 0 (by decide)
    (chars "engineer") (by decide)).2.1

theorem length_filter_contains_comm (l1 l2 : List (List Char))
    (h1 : l1.Nodup) (h2 : l2.Nodup) :
    (l1.filter (fun t => l2.contains t)).length =
      (l2.filter (fun t => l1.contains t)).length := by
  have key : ∀ (a b : List (List Char)), a.Nodup →
      (a.filter (fun t => b.contains t)).length = (a.toFinset ∩ b.toFinset).card := by
    intro a b ha
    rw [← List.toFinset_card_of_nodup (ha.filter _), List.toFinset_filter]
    congr 1
    rw [← Finset.filter_mem_eq_inter]
    apply Finset.filter_congr
    intro x hx
    simp
  rw [key l1 l2 h1, key l2 l1 h2, Finset.inter_comm]

theorem mem_matchingIds_score_pos (index : List (List Char × Nat))
    (terms : List (List Char)) (did : Nat) (h : did ∈ matchingIds index terms) :
    1 ≤ scoreOf index terms did := by
  unfold matchingIds at h
  rw [List.mem_dedup, List.mem_map] at h
  obtain ⟨e, he, hdid⟩ := h
  rw [List.mem_filter] at he
  have hmem : e ∈ index.filter (fun e => terms.contains e.1 && decide (e.2 = did)) := by
    rw [List.mem_filter]
    refine ⟨he.1, ?_⟩
    rw [Bool.and_eq_true]
    exact ⟨he.2, by simp [hdid]⟩
  have : 0 < (index.filter (fun e => terms.contains e.1 && decide (e.2 = did))).length :=
    List.length_pos.mpr (List.ne_nil_of_mem hmem)
  simpa [scoreOf] using this

theorem mem_search_documents (st : BackendState) (q : List Char) (top_k : Nat)
    (r : SearchResult) (hr : r ∈ search_documents st q top_k) :
    ∃ d ∈ st.docs, d.doc_id = r.doc_id ∧ r.doc_id ∈ matchingIds st.index (tokenSet q) ∧
      r = ⟨r.doc_id, d.doc_name, mkSnippet d.content,
        scoreOf st.index (tokenSet q) r.doc_id⟩ := by
  unfold search_documents at hr
  by_cases hempty : (tokenSet q).isEmpty
  · simp [hempty] at hr
  · simp only [hempty, if_false, Bool.false_eq_true] at hr
    rw [List.mem_filterMap] at hr
    obtain ⟨did, hdid, hfd⟩ := hr
    rw [Option.map_eq_some'] at hfd
    obtain ⟨d, hfind, hbuild⟩ := hfd
    have hd : d ∈ st.docs := List.mem_of_find?_eq_some hfind
    have hid : d.doc_id = did := by
      have := List.find?_some hfind
      simpa using this
    have hmem : did ∈ matchingIds st.index (tokenSet q) := by
      have hsub := List.take_subset top_k
        ((matchingIds st.index (tokenSet q)).insertionSort
          (fun a b => scoreOf st.index (tokenSet q) b ≤ scoreOf st.index (tokenSet q) a))
      have := hsub hdid
      exact ((List.perm_insertionSort _ _).mem_iff).mp this
    have hrid : r.doc_id = did := by rw [← hbuild]
    subst hrid
    exact ⟨d, hd, hid, hmem, hbuild.symm⟩

theorem scoresMatch_initState : ScoresMatch initState := by
  refine ⟨?_, ?_, ?_⟩ <;> simp [initState, ScoresMatch]

theorem scoresMatch_ingestDoc (s : BackendState) (jid : Nat)
    (f : List Char × List Char) (h : ScoresMatch s) :
    ScoresMatch (ingestDoc s jid f) := by
  obtain ⟨hidx, hdocs, hsc⟩ := h
  refine ⟨?_, ?_, ?_⟩
  · intro e he
    simp only [ingestDoc, List.mem_append] at he ⊢
    rcases he with he | he
    · exact Nat.lt_succ_of_lt (hidx e he)
    · rw [List.mem_map] at he
      obtain ⟨t, _, rfl⟩ := he
      exact Nat.lt_succ_self _
  · intro d hd
    simp only [ingestDoc, List.mem_append, List.mem_singleton] at hd
    rcases hd with hd | rfl
    · exact Nat.lt_succ_of_lt (hdocs d hd)
    · exact Nat.lt_succ_self _
  · intro d hd terms
    simp only [ingestDoc, List.mem_append, List.mem_singleton] at hd
    unfold scoreOf
    simp only [ingestDoc]
    rw [List.filter_append, List.length_append]
    rcases hd with hd | rfl
    · have hne : s.nextId ≠ d.doc_id := fun hcon =>
        Nat.lt_irrefl _ (hcon ▸ hdocs d hd)
      have hnew : ((tokenSet f.2).map (fun t => (t, s.nextId))).filter
          (fun e => terms.contains e.1 && decide (e.2 = d.doc_id)) = [] := by
        rw [List.filter_eq_nil_iff]
        intro e he
        rw [List.mem_map] at he
        obtain ⟨t, _, rfl⟩ := he
        simp [hne]
      rw [hnew]
      simpa [scoreOf] using hsc d hd terms
  -- the new document: no old row carries the fresh id, and the appended
  -- rows are exactly one per distinct token of the new content
    · have hold : s.index.filter
          (fun e => terms.contains e.1 && decide (e.2 = s.nextId)) = [] := by
        rw [List.filter_eq_nil_iff]
        intro e he
        have := hidx e he
        simp [Nat.ne_of_lt this]
      rw [hold]
      simp only [List.length_nil, Nat.zero_add]
      rw [List.filter_map, List.length_map]
      congr 1
      apply List.filter_congr
      intro t ht
      simp

theorem scoresMatch_fold (jid : Nat) (l : List (List Char × List Char)) :
    ∀ s : BackendState, ScoresMatch s →
      ScoresMatch (l.foldl (fun s f => ingestDoc s jid f) s) := by
  induction l with
  | nil => intro s h; simpa using h
  | cons f t ih =>
    intro s h
    rw [List.foldl_cons]
    exact ih _ (scoresMatch_ingestDoc s jid f h)

theorem scoresMatch_process_documents (jid : Nat)
    (files : List (List Char × List Char)) :
    ScoresMatch (process_documents initState jid files) := by
  unfold process_documents
  have h0 : ScoresMatch (ingestStart initState jid files.length) :=
    scoresMatch_initState
  exact scoresMatch_fold jid files _ h0

theorem search_documents_sorted (st : BackendState) (q : List Char)
    (top_k : Nat) :
    (search_documents st q top_k).Pairwise (fun a b => b.score ≤ a.score) := by
  unfold search_documents
  by_cases hempty : (tokenSet q).isEmpty
  · simp [hempty]
  · simp only [hempty, Bool.false_eq_true, if_false]
    have hsorted : ((matchingIds st.index (tokenSet q)).insertionSort
        (fun a b => scoreOf st.index (tokenSet q) b ≤ scoreOf st.index (tokenSet q) a)).Pairwise
        (fun a b => scoreOf st.index (tokenSet q) b ≤ scoreOf st.index (tokenSet q) a) := by
      haveI : IsTotal Nat (fun a b =>
          scoreOf st.index (tokenSet q) b ≤ scoreOf st.index (tokenSet q) a) :=
        ⟨fun a b => le_total _ _⟩
      haveI : IsTrans Nat (fun a b =>
          scoreOf st.index (tokenSet q) b ≤ scoreOf st.index (tokenSet q) a) :=
        ⟨fun _ _ _ hab hbc => le_trans hbc hab⟩
      exact List.sorted_insertionSort _ _
    have htake := List.Pairwise.sublist (List.take_sublist top_k _) hsorted
    rw [List.pairwise_filterMap]
    refine List.Pairwise.imp ?_ htake
    intro a a' hle b hb b' hb'
    rw [Option.mem_def, Option.map_eq_some'] at hb hb'
    obtain ⟨d, _, rfl⟩ := hb
    obtain ⟨d', _, rfl⟩ := hb'
    exact hle

/-- C4: for every query text and `top_k`: an empty tokenized term set
yields no results; at most `top_k` results are returned, ordered by
descending score; every result has a strictly positive score (documents
with zero matching terms are excluded) computed by the grouped index
count, and its name and 150-character newline-collapsed snippet come from
the stored document it references; and on any state built by ingestion the
score is exactly the number of distinct query terms occurring among the
document's tokens. -/
theorem search_documents_spec (st : BackendState) (q : List Char) (top_k : Nat) :
    (tokenSet q = [] → search_documents st q top_k = []) ∧
    (search_documents st q top_k).length ≤ top_k ∧
    (search_documents st q top_k).Pairwise (fun a b => b.score ≤ a.score) ∧
    (∀ r ∈ search_documents st q top_k,
      1 ≤ r.score ∧ r.score = scoreOf st.index (tokenSet q) r.doc_id ∧
      ∃ d ∈ st.docs, d.doc_id = r.doc_id ∧ r.doc_name = d.doc_name ∧
        r.snippet = mkSnippet d.content) ∧
    (∀ (files : List (List Char × List Char)) (jid pk : Nat) (r : SearchResult),
      r ∈ search_documents (process_documents initState jid files) q pk →
      ∃ d ∈ (process_documents initState jid files).docs, d.doc_id = r.doc_id ∧
        r.score =
          ((tokenSet q).filter (fun t => (tokenSet d.content).contains t)).length) := by
  refine ⟨?_, ?_, search_documents_sorted st q top_k, ?_, ?_⟩
  · intro h
    simp [search_documents, h]
  · unfold search_documents
    by_cases hempty : (tokenSet q).isEmpty
    · simp [hempty]
    · simp only [hempty, Bool.false_eq_true, if_false]
      exact le_trans (List.length_filterMap_le _ _) (List.length_take_le _ _)
  · intro r hr
    obtain ⟨d, hd, hid, hmem, hbuild⟩ := mem_search_documents st q top_k r hr
    refine ⟨?_, ?_, d, hd, hid, ?_, ?_⟩
    · have := mem_matchingIds_score_pos st.index (tokenSet q) r.doc_id hmem
      have hsc : r.score = scoreOf st.index (tokenSet q) r.doc_id :=
        congrArg SearchResult.score hbuild
      omega
    · exact congrArg SearchResult.score hbuild
    · exact congrArg SearchResult.doc_name hbuild
    · exact congrArg SearchResult.snippet hbuild
  · intro files jid pk r hr
    obtain ⟨d, hd, hid, hmem, hbuild⟩ := mem_search_documents _ q pk r hr
    refine ⟨d, hd, hid, ?_⟩
    have hsc : r.score =
        scoreOf (process_documents initState jid files).index (tokenSet q) r.doc_id :=
      congrArg SearchResult.score hbuild
    have hinv := scoresMatch_process_documents jid files
    have h3 := hinv.2.2 d hd (tokenSet q)
    rw [hsc, ← hid, h3]
    exact length_filter_contains_comm _ _ (List.nodup_dedup _) (List.nodup_dedup _)

/-- Witness for C4: a two-document corpus where `"Python Engineer NY"`
matches both terms of the query `"python engineer"` (score 2) and
`"sales report"` matches none (excluded); the punctuation-only query
returns nothing. -/
theorem search_documents_spec_witness :
    search_documents
        (process_documents initState 0
          [(chars "a.txt", chars "Python Engineer NY"),
            (chars "b.txt", chars "sales report")]) (chars "!!!") 5 = [] ∧
    (1 ≤ (⟨0, chars "a.txt", chars "Python Engineer NY", 2⟩ : SearchResult).score ∧
      (⟨0, chars "a.txt", chars "Python Engineer NY", 2⟩ : SearchResult).score =
        scoreOf
          (process_documents initState 0
            [(chars "a.txt", chars "Python Engineer NY"),
              (chars "b.txt", chars "sales report")]).index
          (tokenSet (chars "python engineer"))
          (⟨0, chars "a.txt", chars "Python Engineer NY", 2⟩ : SearchResult).doc_id ∧
      ∃ d ∈ (process_documents initState 0
          [(chars "a.txt", chars "Python Engineer NY"),
            (chars "b.txt", chars "sales report")]).docs,
        d.doc_id = (⟨0, chars "a.txt", chars "Python Engineer NY", 2⟩ : SearchResult).doc_id ∧
        (⟨0, chars "a.txt", chars "Python Engineer NY", 2⟩ : SearchResult).doc_name = d.doc_name ∧
        (⟨0, chars "a.txt", chars "Python Engineer NY", 2⟩ : SearchResult).snippet =
          mkSnippet d.content) :=
  ⟨(search_documents_spec
      (process_documents initState 0
        [(chars "a.txt", chars "Python Engineer NY"),
          (chars "b.txt", chars "sales report")]) (chars "!!!") 5).1 (by decide),
    (search_documents_spec
      (process_documents initState 0
        [(chars "a.txt", chars "Python Engineer NY"),
          (chars "b.txt", chars "sales report")]) (chars "python engineer") 5).2.2.2.1
      ⟨0, chars "a.txt", chars "Python Engineer NY", 2⟩ (by decide)⟩

theorem get_put_fst {K V : Type} [DecidableEq K] (c : LRUCache K V) (k : K)
    (v : V) (h : 1 ≤ c.maxsize) : ((c.put k v).get k).1 = some v := by
  obtain ⟨m, hm⟩ : ∃ m, c.maxsize = m + 1 := ⟨c.maxsize - 1, by omega⟩
  unfold LRUCache.put LRUCache.get
  simp [hm, List.take_succ_cons, List.find?_cons]

theorem get_fst_of_get_hit {K V : Type} [DecidableEq K] (c : LRUCache K V)
    (k : K) (v : V) (c' : LRUCache K V) (h : c.get k = (some v, c')) :
    (c'.get k).1 = some v := by
  unfold LRUCache.get at h
  cases hf : c.items.find? (fun e => decide (e.1 = k)) with
  | none => rw [hf] at h; simp at h
  | some e =>
    rw [hf] at h
    injection h with h1 h2
    injection h1 with h1
    have hk : e.1 = k := by
      have := List.find?_some hf
      simpa using this
    subst h2
    unfold LRUCache.get
    simp [List.find?_cons, hk, h1]

theorem get_none_eq {K V : Type} [DecidableEq K] (c : LRUCache K V) (k : K)
    (h : c.lookup k = none) : c.get k = (none, c) := by
  unfold LRUCache.lookup at h
  unfold LRUCache.get
  cases hf : c.items.find? (fun e => decide (e.1 = k)) with
  | none => rfl
  | some e => rw [hf] at h; simp at h

theorem process_query_hit (execSql : List Char → List SqlParam →
      Except (List Char) (List (List (List Char)))) (year : List Char)
    (st : BackendState) (cache : LRUCache (List Char × Route) QueryResult)
    (q : List Char) (res : QueryResult) (c' : LRUCache (List Char × Route) QueryResult)
    (h : cache.get (q, simple_query_classifier q) = (some res, c')) :
    process_query execSql year st cache q = ({ res with cached := true }, c') := by
  unfold process_query
  dsimp only
  rw [h]

theorem process_query_miss (execSql : List Char → List SqlParam →
      Except (List Char) (List (List (List Char)))) (year : List Char)
    (st : BackendState) (cache : LRUCache (List Char × Route) QueryResult)
    (q : List Char) (c' : LRUCache (List Char × Route) QueryResult)
    (h : cache.get (q, simple_query_classifier q) = (none, c')) :
    process_query execSql year st cache q =
      (computeResult execSql year st q (simple_query_classifier q),
        c'.put (q, simple_query_classifier q)
          (computeResult execSql year st q (simple_query_classifier q))) := by
  unfold process_query
  dsimp only
  rw [h]

/-- C1: cache round-trip. For any query `q`, running `process_query`
twice in sequence (the second call on the cache produced by the first)
returns, on the second call, a result marked as a cache hit whose
`results` payload is the payload the first call returned; the hit flag
only marks provenance. Needs a positive cache capacity (the module
configures 200). -/
theorem process_query_cache_round_trip
    (execSql : List Char → List SqlParam → Except (List Char) (List (List (List Char))))
    (year : List Char) (st : BackendState)
    (cache : LRUCache (List Char × Route) QueryResult) (q : List Char)
    (hcap : 1 ≤ cache.maxsize) :
    (process_query execSql year st
        (process_query execSql year st cache q).2 q).1.cached = true ∧
    (process_query execSql year st
        (process_query execSql year st cache q).2 q).1.results =
      (process_query execSql year st cache q).1.results := by
  rcases hget : cache.get (q, simple_query_classifier q) with ⟨o, c1⟩
  cases o with
  | some res =>
    have h1 := process_query_hit execSql year st cache q res c1 hget
    rcases hget2 : c1.get (q, simple_query_classifier q) with ⟨o2, c2⟩
    have ho2 : o2 = some res := by
      have := get_fst_of_get_hit cache (q, simple_query_classifier q) res c1 hget
      rw [hget2] at this
      exact this
    subst ho2
    have h2 := process_query_hit execSql year st c1 q res c2 hget2
    rw [h1]
    dsimp only
    rw [h2]
    exact ⟨rfl, rfl⟩
  | none =>
    have hc1 : c1 = cache := by
      unfold LRUCache.get at hget
      cases hf : cache.items.find? (fun e => decide (e.1 = (q, simple_query_classifier q))) with
      | none => rw [hf] at hget; injection hget with _ h2; exact h2.symm
      | some e => rw [hf] at hget; simp at hget
    rw [hc1] at hget
    have h1 := process_query_miss execSql year st cache q cache hget
    set result := computeResult execSql year st q (simple_query_classifier q) with hres
    rcases hget2 : (cache.put (q, simple_query_classifier q) result).get
        (q, simple_query_classifier q) with ⟨o2, c2⟩
    have ho2 : o2 = some result := by
      have := get_put_fst cache (q, simple_query_classifier q) result hcap
      rw [hget2] at this
      exact this
    subst ho2
    have h2 := process_query_hit execSql year st
      (cache.put (q, simple_query_classifier q) result) q result c2 hget2
    rw [h1]
    dsimp only
    rw [h2]
    exact ⟨rfl, rfl⟩

/-- Witness for C1: two consecutive runs of `"hello"` against an empty
capacity-200 cache; the second is a hit carrying the first call's payload. -/
theorem process_query_cache_round_trip_witness :
    (process_query (fun _ _ => Except.ok []) (chars "2025") initState
        (process_query (fun _ _ => Except.ok []) (chars "2025") initState
          ⟨200, []⟩ (chars "hello")).2 (chars "hello")).1.cached = true ∧
    (process_query (fun _ _ => Except.ok []) (chars "2025") initState
        (process_query (fun _ _ => Except.ok []) (chars "2025") initState
          ⟨200, []⟩ (chars "hello")).2 (chars "hello")).1.results =
      (process_query (fun _ _ => Except.ok []) (chars "2025") initState
        ⟨200, []⟩ (chars "hello")).1.results :=
  process_query_cache_round_trip (fun _ _ => Except.ok []) (chars "2025")
    initState ⟨200, []⟩ (chars "hello") (by decide)

/-- C7: execution errors are captured, not propagated. On the structured
route with a cache miss, if executing the translated query fails at the
store, `process_query` still returns normally and the result's payload is
the captured error dict; the error never escapes the call. -/
theorem process_query_exec_error
    (execSql : List Char → List SqlParam → Except (List Char) (List (List (List Char))))
    (year : List Char) (st : BackendState)
    (cache : LRUCache (List Char × Route) QueryResult) (q : List Char)
    (e : List Char)
    (hroute : simple_query_classifier q = Route.sql)
    (hmiss : cache.lookup (q, Route.sql) = none)
    (hexec : execSql (nl_to_sql year q).1 (nl_to_sql year q).2 = Except.error e) :
    (process_query execSql year st cache q).1 =
      ⟨q, Route.sql, false, Payload.err e⟩ := by
  have hget : cache.get (q, simple_query_classifier q) = (none, cache) := by
    rw [hroute]
    exact get_none_eq cache (q, Route.sql) hmiss
  have h1 := process_query_miss execSql year st cache q cache hget
  rw [h1]
  dsimp only
  unfold computeResult
  rw [hroute]
  simp only [if_true, reduceIte, nl_to_sql_template_isEmpty, Bool.false_eq_true,
    if_false, hexec]

/-- Witness for C7: the query `"employee count"` takes the structured
route against an empty cache, and a store that always fails with `boom`
yields that error in the payload. -/
theorem process_query_exec_error_witness :
    (process_query (fun _ _ => Except.error (chars "boom")) (chars "2025")
        initState ⟨200, []⟩ (chars "employee count")).1 =
      ⟨chars "employee count", Route.sql, false, Payload.err (chars "boom")⟩ :=
  process_query_exec_error (fun _ _ => Except.error (chars "boom"))
    (chars "2025") initState ⟨200, []⟩ (chars "employee count") (chars "boom")
    (by decide) (by decide) rfl

/-- Counterexample to C9: on the repository's own `departments` table the
code infers a relationship for `dept_id` even though that column is the
table's primary identifier (its `pk` flag is set), because the exclusion
is the hardcoded literal `emp_id`, not the table's primary key; hence the
source inference differs from the spec-described inference on this
concrete input. -/
theorem infer_relationships_counterexample :
    (⟨chars "dept_id", chars "INTEGER", true⟩ : SchemaColumn) ∈ departmentsCols ∧
    (⟨chars "dept_id", chars "INTEGER", true⟩ : SchemaColumn).pk = true ∧
    (⟨chars "dept_id", chars "dept"⟩ : SchemaRel) ∈ inferRelationships departmentsCols ∧
    inferRelationships departmentsCols ≠ inferRelationshipsSpec departmentsCols := by
  decide

/-- C9 (amended): schema discovery infers a relationship for a column
exactly when its name ends in `_id` and the name is not the literal
`emp_id` (the employees primary key, hardcoded for every table,
regardless of the table's own primary identifier); the referenced table
name is the column name with the three-character suffix stripped. The
inference is a pure function of the column list, hence deterministic. -/
theorem infer_relationships_amended (cols : List SchemaColumn) (r : SchemaRel) :
    r ∈ inferRelationships cols ↔
      ∃ c ∈ cols, endsWithId c.name = true ∧ c.name ≠ chars "emp_id" ∧
        r = ⟨c.name, c.name.take (c.name.length - 3)⟩ := by
  unfold inferRelationships
  rw [List.mem_filterMap]
  constructor
  · rintro ⟨c, hc, hf⟩
    by_cases h : endsWithId c.name && !(decide (c.name = chars "emp_id"))
    · rw [if_pos h] at hf
      rw [Bool.and_eq_true] at h
      injection hf with hf
      exact ⟨c, hc, h.1, by simpa using h.2, hf.symm⟩
    · rw [if_neg h] at hf
      exact absurd hf (by simp)
  · rintro ⟨c, hc, h1, h2, rfl⟩
    refine ⟨c, hc, ?_⟩
    rw [if_pos]
    rw [Bool.and_eq_true]
    exact ⟨h1, by simpa using h2⟩
